import Mathlib

/-!
Verification of the incremental soil-moisture processing pipeline
(`src/main.py`, `src/main_sentinel.py`, `src/db.py`, `src/utils.py`,
`src/webhook_notifier.py`, `src/email_notifier.py`).

Shallow embedding conventions:
* Calendar dates and epoch-millisecond timestamps are `Nat`
  (`datetime.fromtimestamp(ts / 1000, utc).date()` becomes division by the
  number of milliseconds in a day).
* Floating-point zonal means are `ℚ`; an absent reduction value is `none`.
* Python code that can raise is embedded in `Except Unit`; an exception
  class that a `try/except` clause does not catch is modelled by letting the
  `Except.error` propagate through the embedding.
* The PostgreSQL table `vv_data` is a `List StoredRow` in insertion order
  (`id SERIAL` = list position); `INSERT ... ON CONFLICT (date) DO UPDATE`
  updates `vv_dB`/`description` of the matching row in place and otherwise
  appends a fresh row whose `created_at` is the commit time.
-/

/-! ## Classifier (`src/utils.py`) -/

/-- `get_description` from `src/utils.py` lines 73-104: the SMAP profile.
`None` is tested first and yields `"Unknown"`; every number falls into the
first matching threshold bucket, the final `else` being a catch-all. -/
def get_description : Option ℚ → String
  | none => "Unknown"
  | some vv_db =>
    if vv_db < 1/20 then "1 – Very Dry"
    else if vv_db < 1/10 then "2 – Dry"
    else if vv_db < 1/5 then "3 – Slightly Moist"
    else if vv_db < 3/10 then "4 – Moderately Moist"
    else "5 – Moist: Recently irrigated or after light rain"

/-- The chain of range tests in `get_sentinel_description`
(`src/utils.py` lines 107-142) on an actual number. -/
def sentinel_description_of (vv_db : ℚ) : String :=
  if -25 ≤ vv_db ∧ vv_db < -22 then
    "1 – Extremely Dry: Hard, cracked soil; drought or bare land"
  else if -22 ≤ vv_db ∧ vv_db < -20 then
    "2 – Very Dry: Dry fields; low water retention"
  else if -20 ≤ vv_db ∧ vv_db < -18 then
    "3 – Dry: Lightly moist topsoil; early stress"
  else if -18 ≤ vv_db ∧ vv_db < -16 then
    "4 – Slightly Moist: Normal soil conditions; vegetated"
  else if -16 ≤ vv_db ∧ vv_db < -14 then
    "5 – Moist: Recently irrigated or after light rain"
  else if -14 ≤ vv_db ∧ vv_db < -12 then
    "6 – Very Moist: Wet surface; saturated or ponding starts"
  else if -12 ≤ vv_db ∧ vv_db ≤ -5 then
    "7 – Saturated / Waterlogged: Standing water, flooded fields, or dense canopy"
  else "Unknown moisture class"

/-- `get_sentinel_description` from `src/utils.py`: unlike `get_description`
it has no `None` guard, so on `None` the first chained comparison
`-25 <= vv_db` raises `TypeError`, embedded as `Except.error ()`. -/
def get_sentinel_description : Option ℚ → Except Unit String
  | none => Except.error ()
  | some vv_db => Except.ok (sentinel_description_of vv_db)

/-! ## New-date computation (`main` in `src/main.py` / `src/main_sentinel.py`) -/

/-- UTC calendar date of an epoch-millisecond timestamp:
`datetime.fromtimestamp(ts / 1000, tz=timezone.utc).date()`. -/
def dateOf (ts : Nat) : Nat := ts / 86400000

/-- The filter in `main` (`src/main.py` lines 76-79, identically
`src/main_sentinel.py` lines 86-89): keep timestamps whose date is strictly
after the stored watermark, or everything when no watermark exists.
A `datetime.date` is always truthy, so `if last:` means `last is not None`. -/
def new_dates (image_dates : List Nat) (last : Option Nat) : List Nat :=
  match last with
  | some l => image_dates.filter (fun dt => decide (l < dateOf dt))
  | none => image_dates

/-! ## The second query's date window (`src/main.py` line 86,
`src/main_sentinel.py` line 96) -/

/-- Arguments handed to the image source's date filter by `src/main.py`:
`filterDate(new_dates[0], new_dates[-1])`.  `none` would mean the end
argument is omitted; this variant always passes both endpoints.  The code
runs only under `if new_dates:`, hence the empty case returns `none`. -/
def main_requery_window : List Nat → Option (Nat × Option Nat)
  | [] => none
  | a :: t => some (a, some (t.getLastD a))

/-- Arguments handed to the image source's date filter by
`src/main_sentinel.py`: `filterDate(new_dates[0])` — the end of the range is
not passed at all. -/
def sentinel_requery_window : List Nat → Option (Nat × Option Nat)
  | [] => none
  | a :: _ => some (a, none)

/-! ## Watermark store (`src/db.py`) -/

/-- One element of the `exported_data` / `dataset` batch:
`{"date": ..., "vv_dB": ..., "description": ...}`. -/
structure ProcessedRecord where
  date : Nat
  vv_dB : Option ℚ
  description : String
deriving DecidableEq

/-- One row of the `vv_data` table (`id SERIAL` is the list position). -/
structure StoredRow where
  date : Nat
  vv_dB : Option ℚ
  description : String
  created_at : Nat
deriving DecidableEq

/-- The `vv_data` table in insertion order. -/
abbrev Store := List StoredRow

/-- Whether a row for this date already exists (the `date DATE UNIQUE`
conflict target). -/
def hasDate (s : Store) (d : Nat) : Bool :=
  s.any (fun r => decide (r.date = d))

/-- Effect of `ON CONFLICT (date) DO UPDATE SET vv_dB = EXCLUDED.vv_dB,
description = EXCLUDED.description` on one row: `id`, `date` and
`created_at` are untouched. -/
def applyUpdate (e : ProcessedRecord) (r : StoredRow) : StoredRow :=
  if r.date = e.date then
    { r with vv_dB := e.vv_dB, description := e.description }
  else r

/-- The conflicting-row update across the table. -/
def updateRow (s : Store) (e : ProcessedRecord) : Store :=
  s.map (applyUpdate e)

/-- One `INSERT ... ON CONFLICT (date) DO UPDATE` statement of
`set_last_processed`: update in place when the date exists, otherwise append
a fresh row timestamped `now` (`created_at TIMESTAMP DEFAULT
CURRENT_TIMESTAMP`). -/
def upsert (now : Nat) (s : Store) (e : ProcessedRecord) : Store :=
  if hasDate s e.date then updateRow s e
  else s ++ [⟨e.date, e.vv_dB, e.description, now⟩]

/-- `set_last_processed` from `src/db.py` lines 91-115: one upsert per batch
entry, in batch order, committed together. -/
def set_last_processed (s : Store) (now : Nat)
    (moisture_data : List ProcessedRecord) : Store :=
  moisture_data.foldl (upsert now) s

/-- The dates column of the table. -/
def datesOf (s : Store) : List Nat := s.map (·.date)

/-- `SELECT MAX(date)`: `none` on an empty table. -/
def maxDate : List Nat → Option Nat
  | [] => none
  | d :: l =>
    match maxDate l with
    | none => some d
    | some m => some (Max.max d m)

/-- `get_last_processed_date` from `src/db.py` lines 77-88. -/
def get_last_processed_date (s : Store) : Option Nat :=
  maxDate (datesOf s)

/-! ## Notifiers (`src/webhook_notifier.py`, `src/email_notifier.py`) -/

/-- Outcome of the underlying `requests.post` call: every failure raised by
`requests` is a `requests.RequestException`. -/
inductive WebhookTransport where
  | response (code : Nat)
  | requestError
deriving DecidableEq

/-- Outcome of the SMTP session in `send_email_notification`: either the
message is sent, or an `smtplib.SMTPException` is raised, or a lower-level
`OSError` (connection refused, DNS failure, socket timeout) is raised. -/
inductive EmailTransport where
  | delivered
  | smtpError
  | osError
deriving DecidableEq

/-- `send_webhook_notification` (`src/webhook_notifier.py` lines 18-47):
the `try/except requests.RequestException` swallows every transport failure,
so the call always returns. -/
def send_webhook_notification (t : WebhookTransport) : Unit :=
  match t with
  | .response _ => ()
  | .requestError => ()

/-- `send_email_notification` (`src/email_notifier.py` lines 97-104): the
`except smtplib.SMTPException` clause catches SMTP protocol errors only; an
`OSError` from connecting is not an `SMTPException` and propagates. -/
def send_email_notification (t : EmailTransport) : Except Unit Unit :=
  match t with
  | .delivered => Except.ok ()
  | .smtpError => Except.ok ()
  | .osError => Except.error ()

/-! ## Per-image extraction and the driver
(`extract_data`, `run_export`, `bulk_notify_and_hook`) -/

/-- What the provider did for one image inside `extract_data`: either some
call raised `ee.EEException`, or the `reduceRegion(...).getInfo()` mean was
obtained (`none` when the dictionary lacks the band key). -/
inductive ExtractOutcome where
  | eeError
  | mean (v : Option ℚ)
deriving DecidableEq

/-- One image of the re-queried collection together with its provider
outcome. -/
structure SourceImage where
  date : Nat
  outcome : ExtractOutcome
deriving DecidableEq

/-- The per-image loop of `run_export` in `src/main.py` lines 172-177: each
`extract_data` call appends `{"date", "vv_dB", "description":
get_description(vv)}` to `exported_data`; `except ee.EEException` skips the
failed image and continues. -/
def smapLoop : List SourceImage → List ProcessedRecord
  | [] => []
  | i :: is =>
    match i.outcome with
    | .eeError => smapLoop is
    | .mean v => ⟨i.date, v, get_description v⟩ :: smapLoop is

/-- The per-image loop of `run_export` in `src/main_sentinel.py` lines
287-292: identical, except its `extract_data` labels with
`get_sentinel_description`, whose `TypeError` on an absent mean is not an
`ee.EEException` and therefore aborts the whole run. -/
def sentinelLoop : List SourceImage → Except Unit (List ProcessedRecord)
  | [] => Except.ok []
  | i :: is =>
    match i.outcome with
    | .eeError => sentinelLoop is
    | .mean v =>
      match get_sentinel_description v with
      | .error e => Except.error e
      | .ok lbl =>
        match sentinelLoop is with
        | .error e => Except.error e
        | .ok rs => Except.ok (⟨i.date, v, lbl⟩ :: rs)

/-- `bulk_notify_and_hook` (`src/main.py` lines 182-210): when the batch is
non-empty it writes the CSV, fires the webhook, sends the email, and only
then calls `set_last_processed`; an uncaught notifier exception therefore
skips the commit.  An empty batch only logs a warning. -/
def bulk_notify_and_hook (s : Store) (now : Nat)
    (exported_data : List ProcessedRecord)
    (wt : WebhookTransport) (et : EmailTransport) : Except Unit Store :=
  if exported_data = [] then Except.ok s
  else
    match send_webhook_notification wt, send_email_notification et with
    | _, .error e => Except.error e
    | _, .ok _ => Except.ok (set_last_processed s now exported_data)

/-- `run_export` of `src/main.py` lines 155-179: the per-image loop followed
by `bulk_notify_and_hook`. -/
def run_export (s : Store) (now : Nat) (imgs : List SourceImage)
    (wt : WebhookTransport) (et : EmailTransport) : Except Unit Store :=
  bulk_notify_and_hook s now (smapLoop imgs) wt et

/-- `run_export` of `src/main_sentinel.py` lines 271-293: a `TypeError`
escaping the loop propagates before `bulk_notify_and_hook` runs. -/
def run_export_sentinel (s : Store) (now : Nat) (imgs : List SourceImage)
    (wt : WebhookTransport) (et : EmailTransport) : Except Unit Store :=
  match sentinelLoop imgs with
  | .error e => Except.error e
  | .ok batch => bulk_notify_and_hook s now batch wt et

/-- Batch construction of `export_table` (`src/main_sentinel.py` lines
199-230): features are mapped to `(date, vv)` pairs and
`.filter(ee.Filter.notNull(["vv"]))` drops every feature whose reduction
value is absent before the DataFrame rows are built. -/
def export_table_batch (feats : List (Nat × Option ℚ)) : List ProcessedRecord :=
  feats.filterMap (fun f =>
    match f.2 with
    | none => none
    | some v => some ⟨f.1, some v, sentinel_description_of v⟩)

/-- Images whose extraction succeeds with the given (possibly absent)
means. -/
def okImgs (ps : List (Nat × Option ℚ)) : List SourceImage :=
  ps.map (fun p => ⟨p.1, .mean p.2⟩)

/-- Images whose extraction succeeds with the given present means. -/
def okImgsQ (ps : List (Nat × ℚ)) : List SourceImage :=
  ps.map (fun p => ⟨p.1, .mean (some p.2)⟩)

/-- The records the sentinel loop builds for present means. -/
def sentinelBatch (ps : List (Nat × ℚ)) : List ProcessedRecord :=
  ps.map (fun p => ⟨p.1, some p.2, sentinel_description_of p.2⟩)

/-! ## Helper lemmas -/

theorem smapLoop_append (xs ys : List SourceImage) :
    smapLoop (xs ++ ys) = smapLoop xs ++ smapLoop ys := by
  induction xs with
  | nil => rfl
  | cons i is ih => cases h : i.outcome <;> simp [smapLoop, h, ih]

theorem getLastD_mem (t : List Nat) (a : Nat) : t.getLastD a ∈ a :: t := by
  induction t generalizing a with
  | nil => simp
  | cons b t' ih =>
    rw [List.getLastD_cons]
    exact List.mem_cons_of_mem a (ih b)

theorem sorted_le_getLastD (a : Nat) (t : List Nat)
    (hs : (a :: t).Sorted (· ≤ ·)) :
    ∀ x ∈ a :: t, x ≤ t.getLastD a := by
  induction t generalizing a with
  | nil =>
    intro x hx
    simp only [List.mem_singleton] at hx
    simp [hx]
  | cons b t' ih =>
    intro x hx
    rw [List.getLastD_cons]
    have h1 := List.sorted_cons.mp hs
    rcases List.mem_cons.mp hx with rfl | hx'
    · exact h1.1 _ (getLastD_mem t' b)
    · exact ih b h1.2 x hx'

/-! ## Claim theorems -/

/-- C1: for a stored watermark `w` the driver keeps exactly the timestamps
whose date is strictly greater than `w` (ties excluded); with no watermark
it keeps all of them; and nothing survives when `w` bounds every date from
above. -/
theorem new_dates_filter_spec (T : List Nat) (w : Nat) :
    (∀ t, t ∈ new_dates T (some w) ↔ t ∈ T ∧ w < dateOf t) ∧
    new_dates T none = T ∧
    ((∀ t ∈ T, dateOf t ≤ w) → new_dates T (some w) = []) := by
  refine ⟨fun t => ?_, rfl, fun h => ?_⟩
  · simp [new_dates, List.mem_filter]
  · simp only [new_dates]
    exact List.filter_eq_nil_iff.mpr fun a ha => by
      simpa using Nat.not_lt.mpr (h a ha)

/-- C1 witness: timestamp 90000000 ms has date 1, so watermark 1 filters it
out while an absent watermark keeps it. -/
theorem new_dates_filter_spec_w :
    new_dates [90000000] (some 1) = [] ∧
    new_dates [90000000] none = [90000000] :=
  ⟨(new_dates_filter_spec [90000000] 1).2.2 (by decide),
   (new_dates_filter_spec [90000000] 1).2.1⟩

/-- C6: the classifier is not total as claimed: the Sentinel profile raises
`TypeError` on an absent value instead of returning the `"Unknown"`
sentinel, and the SMAP profile maps the out-of-domain value `-30` to an
ordinary bin label instead of a fallback label. -/
theorem classifier_null_input_bug :
    get_sentinel_description none = Except.error () ∧
    get_description (some (-30)) = "1 – Very Dry" ∧
    "1 – Very Dry" ≠ "Unknown moisture class" ∧
    get_description none = "Unknown" :=
  ⟨rfl, by norm_num [get_description], by decide, rfl⟩

/-- C7 counterexample: in the Sentinel `export_table` path a feature whose
reduction value is absent is filtered out entirely, so no record (null value
or otherwise) for it reaches the committed batch. -/
theorem no_data_excluded_sentinel_cex :
    export_table_batch [(5, (none : Option ℚ))] = [] ∧
    ∀ r ∈ export_table_batch [(5, (none : Option ℚ))], False := by
  refine ⟨rfl, ?_⟩
  simp [export_table_batch]

/-- C7 amended: in the SMAP pipeline (`src/main.py`) an image whose
reduction yields no data produces the record `⟨d, none, "Unknown"⟩`, which
is kept in the batch alongside the other records; the Sentinel
`export_table` path instead drops such features. -/
theorem no_data_record_included_smap (d : Nat) (pre post : List SourceImage) :
    get_description none = "Unknown" ∧
    smapLoop (pre ++ ⟨d, ExtractOutcome.mean none⟩ :: post)
      = smapLoop pre ++ ⟨d, none, "Unknown"⟩ :: smapLoop post := by
  refine ⟨rfl, ?_⟩
  rw [smapLoop_append]
  rfl

/-- C8 counterexample: the Sentinel variant's second query passes only
`new_dates[0]` to the date filter — no end bound `max(newDates)` at all —
unlike the SMAP variant which passes both endpoints. -/
theorem sentinel_requery_args_cex :
    sentinel_requery_window [1, 2] = some (1, none) ∧
    main_requery_window [1, 2] = some (1, some 2) ∧
    some ((1 : Nat), (none : Option Nat)) ≠ some (1, some 2) :=
  ⟨rfl, rfl, by decide⟩

/-- C8 amended: in the SMAP variant only, and assuming the source lists
timestamps in ascending order, the second query is bounded by
`new_dates[0]` and `new_dates[-1]`, which are then the minimum and maximum
of the new timestamps. -/
theorem smap_requery_window_min_max (a : Nat) (t : List Nat)
    (hs : (a :: t).Sorted (· ≤ ·)) :
    main_requery_window (a :: t) = some (a, some (t.getLastD a)) ∧
    a ∈ a :: t ∧ t.getLastD a ∈ a :: t ∧
    (∀ x ∈ a :: t, a ≤ x ∧ x ≤ t.getLastD a) := by
  refine ⟨rfl, List.mem_cons_self a t, getLastD_mem t a,
    fun x hx => ⟨?_, sorted_le_getLastD a t hs x hx⟩⟩
  rcases List.mem_cons.mp hx with rfl | hx'
  · exact le_refl x
  · exact (List.sorted_cons.mp hs).1 x hx'

/-- C8 amended witness at the sorted list `[3, 7]`. -/
theorem smap_requery_window_min_max_w :
    main_requery_window [3, 7] = some (3, some 7) ∧
    3 ∈ ([3, 7] : List Nat) ∧ 7 ∈ ([3, 7] : List Nat) ∧
    (∀ x ∈ ([3, 7] : List Nat), 3 ≤ x ∧ x ≤ 7) := by
  simpa using smap_requery_window_min_max 3 [7] (by decide)

/-! ## Store lemmas -/

theorem applyUpdate_date (e : ProcessedRecord) (r : StoredRow) :
    (applyUpdate e r).date = r.date := by
  unfold applyUpdate; split <;> rfl

theorem datesOf_updateRow (s : Store) (e : ProcessedRecord) :
    datesOf (updateRow s e) = datesOf s := by
  simp only [datesOf, updateRow, List.map_map]
  exact List.map_congr_left fun r _ => applyUpdate_date e r

theorem hasDate_iff (s : Store) (d : Nat) :
    hasDate s d = true ↔ d ∈ datesOf s := by
  simp [hasDate, datesOf, List.any_eq_true, List.mem_map]

theorem datesOf_upsert (now : Nat) (s : Store) (e : ProcessedRecord) :
    datesOf (upsert now s e) = datesOf s ∨
    datesOf (upsert now s e) = datesOf s ++ [e.date] := by
  unfold upsert; split
  · exact Or.inl (datesOf_updateRow s e)
  · exact Or.inr (by simp [datesOf])

theorem datesOf_subset_upsert (now : Nat) (s : Store) (e : ProcessedRecord) :
    ∀ x ∈ datesOf s, x ∈ datesOf (upsert now s e) := by
  rcases datesOf_upsert now s e with h | h <;> rw [h] <;> intro x hx
  · exact hx
  · exact List.mem_append_left _ hx

theorem datesOf_subset_set (s : Store) (now : Nat)
    (B : List ProcessedRecord) :
    ∀ x ∈ datesOf s, x ∈ datesOf (set_last_processed s now B) := by
  induction B generalizing s with
  | nil => exact fun x hx => hx
  | cons e B ih =>
    exact fun x hx => ih (upsert now s e) x (datesOf_subset_upsert now s e x hx)

theorem mem_datesOf_upsert_self (now : Nat) (s : Store) (e : ProcessedRecord) :
    e.date ∈ datesOf (upsert now s e) := by
  by_cases h : hasDate s e.date = true
  · simp only [upsert, h, if_true, datesOf_updateRow]
    exact (hasDate_iff s e.date).mp h
  · simp [upsert, h, datesOf]

theorem mem_datesOf_set (s : Store) (now : Nat) (B : List ProcessedRecord)
    (e : ProcessedRecord) (he : e ∈ B) :
    e.date ∈ datesOf (set_last_processed s now B) := by
  induction B generalizing s with
  | nil => cases he
  | cons f B ih =>
    rcases List.mem_cons.mp he with rfl | he'
    · exact datesOf_subset_set (upsert now s e) now B _
        (mem_datesOf_upsert_self now s e)
    · exact ih (upsert now s f) he'

theorem datesOf_set_subset (s : Store) (now : Nat) (B : List ProcessedRecord) :
    ∀ x ∈ datesOf (set_last_processed s now B),
      x ∈ datesOf s ∨ x ∈ B.map (·.date) := by
  induction B generalizing s with
  | nil => exact fun x hx => Or.inl hx
  | cons e B ih =>
    intro x hx
    rcases ih (upsert now s e) x hx with h | h
    · rcases datesOf_upsert now s e with hu | hu
      · exact Or.inl (hu ▸ h)
      · rw [hu] at h
        rcases List.mem_append.mp h with h' | h'
        · exact Or.inl h'
        · simp only [List.mem_singleton] at h'
          exact Or.inr (by simp [h'])
    · exact Or.inr (by simp only [List.map_cons]; exact List.mem_cons_of_mem _ h)

theorem datesOf_set_append (s : Store) (now : Nat) (B : List ProcessedRecord) :
    ∃ t, datesOf (set_last_processed s now B) = datesOf s ++ t := by
  induction B generalizing s with
  | nil => exact ⟨[], by simp [set_last_processed]⟩
  | cons e B ih =>
    rcases ih (upsert now s e) with ⟨t, ht⟩
    rcases datesOf_upsert now s e with hu | hu
    · exact ⟨t, by rw [show set_last_processed s now (e :: B)
        = set_last_processed (upsert now s e) now B from rfl, ht, hu]⟩
    · refine ⟨e.date :: t, ?_⟩
      rw [show set_last_processed s now (e :: B)
        = set_last_processed (upsert now s e) now B from rfl, ht, hu]
      simp

theorem maxDate_mem (l : List Nat) (m : Nat) (h : maxDate l = some m) :
    m ∈ l := by
  induction l with
  | nil => simp [maxDate] at h
  | cons d l ih =>
    cases h' : maxDate l with
    | none =>
      simp [maxDate, h'] at h
      exact h ▸ List.mem_cons_self d l
    | some m' =>
      simp [maxDate, h'] at h
      rcases max_choice d m' with hc | hc
      · rw [hc] at h; exact h ▸ List.mem_cons_self d l
      · rw [hc] at h; exact List.mem_cons_of_mem d (ih (h ▸ h'))

theorem le_maxDate (l : List Nat) (x : Nat) (hx : x ∈ l) :
    ∃ m, maxDate l = some m ∧ x ≤ m := by
  induction l with
  | nil => cases hx
  | cons d l ih =>
    rcases List.mem_cons.mp hx with rfl | hx'
    · cases h : maxDate l with
      | none => exact ⟨x, by simp [maxDate, h], le_refl x⟩
      | some m' => exact ⟨Max.max x m', by simp [maxDate, h], le_max_left x m'⟩
    · rcases ih hx' with ⟨m', hm', hle⟩
      exact ⟨Max.max d m', by simp [maxDate, hm'],
        le_trans hle (le_max_right d m')⟩

theorem maxDate_eq_of (l : List Nat) (D : Nat) (hmem : D ∈ l)
    (hub : ∀ x ∈ l, x ≤ D) : maxDate l = some D := by
  rcases le_maxDate l D hmem with ⟨m, hm, hDm⟩
  rw [hm]
  exact congrArg some (le_antisymm (hub m (maxDate_mem l m hm)) hDm)

theorem smapLoop_dates (imgs : List SourceImage) (r : ProcessedRecord)
    (hr : r ∈ smapLoop imgs) : ∃ i ∈ imgs, r.date = i.date := by
  induction imgs with
  | nil => cases hr
  | cons i is ih =>
    cases h : i.outcome with
    | eeError =>
      simp only [smapLoop, h] at hr
      rcases ih hr with ⟨j, hj, hdj⟩
      exact ⟨j, List.mem_cons_of_mem i hj, hdj⟩
    | mean v =>
      simp only [smapLoop, h, List.mem_cons] at hr
      rcases hr with rfl | hr'
      · exact ⟨i, List.mem_cons_self i is, rfl⟩
      · rcases ih hr' with ⟨j, hj, hdj⟩
        exact ⟨j, List.mem_cons_of_mem i hj, hdj⟩

theorem filter_updateRow (s : Store) (e : ProcessedRecord) (d : Nat)
    (hd : d ≠ e.date) :
    (updateRow s e).filter (fun r => decide (r.date = d))
      = s.filter (fun r => decide (r.date = d)) := by
  induction s with
  | nil => rfl
  | cons r s ih =>
    show ((applyUpdate e r) :: updateRow s e).filter _ = _
    rw [List.filter_cons, List.filter_cons]
    by_cases h : r.date = d
    · have hne : ¬ r.date = e.date := fun hh => hd (h ▸ hh)
      have hfix : applyUpdate e r = r := by simp [applyUpdate, hne]
      rw [hfix]
      simp [h, ih]
    · simp [applyUpdate_date, h, ih]

theorem filter_upsert (now : Nat) (s : Store) (e : ProcessedRecord) (d : Nat)
    (hd : d ≠ e.date) :
    (upsert now s e).filter (fun r => decide (r.date = d))
      = s.filter (fun r => decide (r.date = d)) := by
  by_cases h : hasDate s e.date = true
  · simp only [upsert, h, if_true]
    exact filter_updateRow s e d hd
  · simp only [upsert, h, if_false, Bool.false_eq_true, ite_false,
      List.filter_append]
    have : ([(⟨e.date, e.vv_dB, e.description, now⟩ : StoredRow)]).filter
        (fun r => decide (r.date = d)) = [] := by
      simp [Ne.symm hd]
    rw [this, List.append_nil]

/-- C10: a commit touches only the dates of its batch: rows for any other
date keep their value, label and creation time, and no row is ever removed
(the original table is a prefix of the new one, date for date). -/
theorem commit_frame (s : Store) (now : Nat) (B : List ProcessedRecord)
    (d : Nat) (hd : d ∉ B.map (·.date)) :
    (set_last_processed s now B).filter (fun r => decide (r.date = d))
      = s.filter (fun r => decide (r.date = d)) ∧
    ∃ t, datesOf (set_last_processed s now B) = datesOf s ++ t := by
  refine ⟨?_, datesOf_set_append s now B⟩
  induction B generalizing s with
  | nil => rfl
  | cons e B ih =>
    rw [List.map_cons] at hd
    have hd1 : d ≠ e.date := fun h => hd (h ▸ List.mem_cons_self _ _)
    have hd2 : d ∉ B.map (·.date) := fun h => hd (List.mem_cons_of_mem _ h)
    calc (set_last_processed (upsert now s e) now B).filter
          (fun r => decide (r.date = d))
        = (upsert now s e).filter (fun r => decide (r.date = d)) := ih _ hd2
      _ = s.filter (fun r => decide (r.date = d)) := filter_upsert now s e d hd1

/-- C10 witness: committing a batch for date 1 leaves the row for date 2
untouched and only appends. -/
theorem commit_frame_w :
    ([⟨2, none, "x", 7⟩] ++ [⟨1, none, "Unknown", 9⟩] : Store).filter
        (fun r => decide (r.date = 2))
      = ([⟨2, none, "x", 7⟩] : Store).filter (fun r => decide (r.date = 2)) ∧
    ∃ t, datesOf (set_last_processed [⟨2, none, "x", 7⟩] 9
        [⟨1, none, "Unknown"⟩]) = datesOf [⟨2, none, "x", 7⟩] ++ t := by
  have h := commit_frame [⟨2, none, "x", 7⟩] 9 [⟨1, none, "Unknown"⟩] 2
    (by decide)
  exact ⟨h.1, h.2⟩

theorem watermark_step (s : Store) (now : Nat) (B : List ProcessedRecord)
    (w : Nat) (h : get_last_processed_date s = some w) :
    ∃ w', get_last_processed_date (set_last_processed s now B) = some w' ∧
      w ≤ w' := by
  have hw : w ∈ datesOf s := maxDate_mem _ _ h
  exact le_maxDate _ w (datesOf_subset_set s now B w hw)

/-- C4: the watermark never decreases: along any sequence of commits, the
stored maximum date after the whole sequence is at least the maximum before
it (commits only insert or overwrite rows, never delete). -/
theorem watermark_monotone (s : Store)
    (batches : List (Nat × List ProcessedRecord)) (w : Nat)
    (h : get_last_processed_date s = some w) :
    ∃ w', get_last_processed_date
        (batches.foldl (fun st b => set_last_processed st b.1 b.2) s)
      = some w' ∧ w ≤ w' := by
  induction batches generalizing s w with
  | nil => exact ⟨w, h, le_refl w⟩
  | cons b bs ih =>
    rcases watermark_step s b.1 b.2 w h with ⟨w1, h1, hw1⟩
    rcases ih (set_last_processed s b.1 b.2) w1 h1 with ⟨w', h', hle⟩
    exact ⟨w', h', le_trans hw1 hle⟩

/-- C4 witness: a store at watermark 3 stays at least at 3 across two
further commits. -/
theorem watermark_monotone_w :
    ∃ w', get_last_processed_date
        (([(5, [⟨2, none, "Unknown"⟩]), (6, [⟨4, none, "Unknown"⟩])] :
            List (Nat × List ProcessedRecord)).foldl
          (fun st b => set_last_processed st b.1 b.2) [⟨3, none, "x", 0⟩])
      = some w' ∧ 3 ≤ w' :=
  watermark_monotone [⟨3, none, "x", 0⟩]
    [(5, [⟨2, none, "Unknown"⟩]), (6, [⟨4, none, "Unknown"⟩])] 3 rfl

/-- C2 counterexample: a run over images dated 1 and 2 in which the image
carrying the maximal date 2 fails extraction: the commit executes (batch
non-empty), yet the watermark seen by the next run is 1, not
`max(newDates) = 2`. -/
theorem watermark_gap_cex :
    (∀ i ∈ ([⟨1, .mean none⟩, ⟨2, .eeError⟩] : List SourceImage),
      i.date ≤ 2) ∧
    (⟨2, ExtractOutcome.eeError⟩ : SourceImage)
      ∈ ([⟨1, .mean none⟩, ⟨2, .eeError⟩] : List SourceImage) ∧
    run_export [] 0 [⟨1, .mean none⟩, ⟨2, .eeError⟩]
        (WebhookTransport.response 200) EmailTransport.delivered
      = Except.ok [⟨1, none, "Unknown", 0⟩] ∧
    get_last_processed_date [⟨1, none, "Unknown", 0⟩] = some 1 ∧
    (some 1 : Option Nat) ≠ some 2 :=
  ⟨by decide, by decide, rfl, rfl, by decide⟩

/-- C2 amended: the watermark advances to the maximum date among the
*successfully extracted* images of the run (not `max(newDates)`): whenever
the image carrying the maximal date succeeds, every image date and every
previously stored date is at most `D`, and the caught notifier outcomes do
not abort, the committed store's maximum is exactly `D`. -/
theorem watermark_advances_to_max_success (s : Store) (now : Nat)
    (pre post : List SourceImage) (D : Nat) (v : Option ℚ)
    (wt : WebhookTransport) (et : EmailTransport)
    (hD : ∀ i ∈ pre ++ post, i.date ≤ D)
    (hs : ∀ r ∈ s, r.date ≤ D)
    (het : et ≠ EmailTransport.osError) :
    ∃ st, run_export s now (pre ++ ⟨D, ExtractOutcome.mean v⟩ :: post) wt et
        = Except.ok st ∧ get_last_processed_date st = some D := by
  have hbeq : smapLoop (pre ++ ⟨D, ExtractOutcome.mean v⟩ :: post)
      = smapLoop pre ++ ⟨D, v, get_description v⟩ :: smapLoop post := by
    rw [smapLoop_append]; rfl
  have hne : smapLoop (pre ++ ⟨D, ExtractOutcome.mean v⟩ :: post) ≠ [] := by
    rw [hbeq]; simp
  refine ⟨set_last_processed s now
    (smapLoop (pre ++ ⟨D, ExtractOutcome.mean v⟩ :: post)), ?_, ?_⟩
  · unfold run_export bulk_notify_and_hook
    rw [if_neg hne]
    cases et with
    | delivered => rfl
    | smtpError => rfl
    | osError => exact absurd rfl het
  · apply maxDate_eq_of
    · refine mem_datesOf_set s now _ ⟨D, v, get_description v⟩ ?_
      rw [hbeq]
      exact List.mem_append_right _ (List.mem_cons_self _ _)
    · intro x hx
      rcases datesOf_set_subset s now _ x hx with h | h
      · rcases List.mem_map.mp h with ⟨r, hr, hrx⟩
        exact hrx ▸ hs r hr
      · rcases List.mem_map.mp h with ⟨r, hr, hrx⟩
        rw [hbeq] at hr
        rcases List.mem_append.mp hr with h' | h'
        · rcases smapLoop_dates pre r h' with ⟨i, hi, hdi⟩
          exact hrx ▸ hdi ▸ hD i (List.mem_append_left _ hi)
        · rcases List.mem_cons.mp h' with rfl | h''
          · exact hrx ▸ le_refl D
          · rcases smapLoop_dates post r h'' with ⟨i, hi, hdi⟩
            exact hrx ▸ hdi ▸ hD i (List.mem_append_right _ hi)

/-- C2 amended witness: when the image dated 2 (the maximum) succeeds, the
watermark lands on 2. -/
theorem watermark_advances_to_max_success_w :
    ∃ st, run_export [] 0
        ([⟨1, ExtractOutcome.mean none⟩] ++
          ⟨2, ExtractOutcome.mean none⟩ :: [])
        (WebhookTransport.response 200) EmailTransport.delivered
      = Except.ok st ∧ get_last_processed_date st = some 2 :=
  watermark_advances_to_max_success [] 0 [⟨1, ExtractOutcome.mean none⟩] []
    2 none (WebhookTransport.response 200) EmailTransport.delivered
    (by decide) (by decide) (by decide)

/-! ## Idempotence development: replaying a batch over a store that already
contains it only rewrites rows in place with the values they already have. -/

/-- The last batch entry carrying a given date (within one commit, later
`INSERT ... ON CONFLICT` statements overwrite earlier ones). -/
def lastEntry : List ProcessedRecord → Nat → Option ProcessedRecord
  | [], _ => none
  | e :: B, d =>
    match lastEntry B d with
    | some e' => some e'
    | none => if e.date = d then some e else none

/-- Net effect of a pure-update commit on a single row. -/
def applyLast (B : List ProcessedRecord) (r : StoredRow) : StoredRow :=
  match lastEntry B r.date with
  | none => r
  | some e => { r with vv_dB := e.vv_dB, description := e.description }

theorem applyLast_cons (e : ProcessedRecord) (B : List ProcessedRecord)
    (r : StoredRow) :
    applyLast B (applyUpdate e r) = applyLast (e :: B) r := by
  unfold applyLast
  rw [applyUpdate_date e r]
  cases h : lastEntry B r.date with
  | some e' =>
    have h2 : lastEntry (e :: B) r.date = some e' := by simp [lastEntry, h]
    rw [h2]
    by_cases hre : r.date = e.date
    · simp [applyUpdate, hre]
    · simp [applyUpdate, hre]
  | none =>
    have h2 : lastEntry (e :: B) r.date
        = if e.date = r.date then some e else none := by simp [lastEntry, h]
    rw [h2]
    by_cases hd : e.date = r.date
    · rw [if_pos hd]
      simp [applyUpdate, hd]
    · rw [if_neg hd]
      have hne : ¬ r.date = e.date := fun hh => hd hh.symm
      simp [applyUpdate, hne]

theorem foldl_updateRow_eq_map (B : List ProcessedRecord) (s : Store) :
    B.foldl updateRow s = s.map (applyLast B) := by
  induction B generalizing s with
  | nil =>
    show s = s.map (applyLast [])
    have : s.map (applyLast []) = s.map id :=
      List.map_congr_left fun r _ => rfl
    rw [this, List.map_id]
  | cons e B ih =>
    show B.foldl updateRow (updateRow s e) = s.map (applyLast (e :: B))
    rw [ih (updateRow s e)]
    show (s.map (applyUpdate e)).map (applyLast B) = _
    rw [List.map_map]
    exact List.map_congr_left fun r _ => applyLast_cons e B r

theorem upsert_of_hasDate (now : Nat) (s : Store) (e : ProcessedRecord)
    (h : e.date ∈ datesOf s) : upsert now s e = updateRow s e := by
  unfold upsert
  rw [if_pos ((hasDate_iff s e.date).mpr h)]

theorem set_eq_foldl_updateRow (s : Store) (now : Nat)
    (B : List ProcessedRecord) (h : ∀ e ∈ B, e.date ∈ datesOf s) :
    set_last_processed s now B = B.foldl updateRow s := by
  induction B generalizing s with
  | nil => rfl
  | cons e B ih =>
    show set_last_processed (upsert now s e) now B
      = B.foldl updateRow (updateRow s e)
    rw [upsert_of_hasDate now s e (h e (List.mem_cons_self _ _))]
    exact ih (updateRow s e)
      fun e' he' => (datesOf_updateRow s e) ▸ h e' (List.mem_cons_of_mem _ he')

theorem lastEntry_append_single (B : List ProcessedRecord)
    (e : ProcessedRecord) (d : Nat) :
    lastEntry (B ++ [e]) d = if e.date = d then some e else lastEntry B d := by
  induction B with
  | nil => simp [lastEntry]
  | cons f B ih =>
    show (match lastEntry (B ++ [e]) d with
      | some e' => some e'
      | none => if f.date = d then some f else none) = _
    rw [ih]
    by_cases hd : e.date = d
    · rw [if_pos hd, if_pos hd]
    · rw [if_neg hd, if_neg hd]
      rfl

theorem mem_of_mem_upsert_ne (now : Nat) (t : Store) (e : ProcessedRecord)
    (r : StoredRow) (hr : r ∈ upsert now t e) (hd : e.date ≠ r.date) :
    r ∈ t := by
  by_cases hh : hasDate t e.date = true
  · rw [upsert, if_pos hh, updateRow] at hr
    rcases List.mem_map.mp hr with ⟨r0, hr0, heq⟩
    by_cases h0 : r0.date = e.date
    · exfalso
      apply hd
      have : r.date = e.date := by rw [← heq, applyUpdate_date, h0]
      exact this.symm
    · have hfix : applyUpdate e r0 = r0 := by simp [applyUpdate, h0]
      rw [hfix] at heq
      exact heq ▸ hr0
  · rw [upsert, if_neg hh] at hr
    rcases List.mem_append.mp hr with h' | h'
    · exact h'
    · exfalso
      simp only [List.mem_singleton] at h'
      apply hd
      rw [h']

theorem set_agrees_lastEntry (s : Store) (now : Nat)
    (B : List ProcessedRecord) :
    ∀ r ∈ set_last_processed s now B, ∀ e', lastEntry B r.date = some e' →
      r.vv_dB = e'.vv_dB ∧ r.description = e'.description := by
  induction B using List.reverseRecOn with
  | nil =>
    intro r _ e' he'
    simp [lastEntry] at he'
  | append_singleton B e ih =>
    intro r hr e' he'
    rw [set_last_processed, List.foldl_append] at hr
    change r ∈ upsert now (set_last_processed s now B) e at hr
    rw [lastEntry_append_single] at he'
    by_cases hd : e.date = r.date
    · rw [if_pos hd] at he'
      have he2 : e = e' := Option.some.inj he'
      subst he2
      by_cases hh : hasDate (set_last_processed s now B) e.date = true
      · rw [upsert, if_pos hh, updateRow] at hr
        rcases List.mem_map.mp hr with ⟨r0, _, heq⟩
        by_cases h0 : r0.date = e.date
        · have : applyUpdate e r0
              = { r0 with vv_dB := e.vv_dB, description := e.description } := by
            simp [applyUpdate, h0]
          rw [this] at heq
          rw [← heq]
          exact ⟨rfl, rfl⟩
        · exfalso
          have hfix : applyUpdate e r0 = r0 := by simp [applyUpdate, h0]
          rw [hfix] at heq
          apply h0
          rw [heq, ← hd]
      · rw [upsert, if_neg hh] at hr
        rcases List.mem_append.mp hr with h' | h'
        · exfalso
          apply hh
          apply (hasDate_iff _ _).mpr
          rw [hd]
          exact List.mem_map.mpr ⟨r, h', rfl⟩
        · simp only [List.mem_singleton] at h'
          rw [h']
          exact ⟨rfl, rfl⟩
    · rw [if_neg hd] at he'
      exact ih r (mem_of_mem_upsert_ne now _ e r hr hd) e' he'

theorem applyLast_fix (B : List ProcessedRecord) (r : StoredRow)
    (h : ∀ e', lastEntry B r.date = some e' →
      r.vv_dB = e'.vv_dB ∧ r.description = e'.description) :
    applyLast B r = r := by
  unfold applyLast
  cases he : lastEntry B r.date with
  | none => rfl
  | some e' =>
    rcases h e' he with ⟨h1, h2⟩
    cases r
    simp_all

theorem map_fix_eq_self {α : Type} (l : List α) (f : α → α)
    (h : ∀ x ∈ l, f x = x) : l.map f = l := by
  induction l with
  | nil => rfl
  | cons a l ih =>
    rw [List.map_cons, h a (List.mem_cons_self _ _),
      ih fun x hx => h x (List.mem_cons_of_mem _ hx)]

theorem nodup_datesOf_upsert (now : Nat) (s : Store) (e : ProcessedRecord)
    (h : (datesOf s).Nodup) : (datesOf (upsert now s e)).Nodup := by
  by_cases hh : hasDate s e.date = true
  · rw [upsert, if_pos hh, datesOf_updateRow]
    exact h
  · have hnot : e.date ∉ datesOf s := fun hm => hh ((hasDate_iff s e.date).mpr hm)
    rw [upsert, if_neg hh]
    have : datesOf (s ++ [⟨e.date, e.vv_dB, e.description, now⟩])
        = datesOf s ++ [e.date] := by simp [datesOf]
    rw [this]
    exact List.nodup_append.mpr ⟨h, List.nodup_singleton _,
      fun a ha hb => by
        simp only [List.mem_singleton] at hb
        exact hnot (hb ▸ ha)⟩

theorem nodup_datesOf_set (s : Store) (now : Nat) (B : List ProcessedRecord)
    (h : (datesOf s).Nodup) :
    (datesOf (set_last_processed s now B)).Nodup := by
  induction B generalizing s with
  | nil => exact h
  | cons e B ih => exact ih (upsert now s e) (nodup_datesOf_upsert now s e h)

/-- C3: commits are idempotent: replaying the same batch over the
just-committed store leaves it unchanged — the second commit only overwrites
each row keyed by its date with identical value and label — and a commit
never introduces a duplicate row for a date. -/
theorem commit_idempotent (s : Store) (n n' : Nat)
    (B : List ProcessedRecord) :
    set_last_processed (set_last_processed s n B) n' B
      = set_last_processed s n B ∧
    ((datesOf s).Nodup → (datesOf (set_last_processed s n B)).Nodup) := by
  refine ⟨?_, nodup_datesOf_set s n B⟩
  have hmem : ∀ e ∈ B, e.date ∈ datesOf (set_last_processed s n B) :=
    fun e he => mem_datesOf_set s n B e he
  rw [set_eq_foldl_updateRow _ n' B hmem, foldl_updateRow_eq_map]
  exact map_fix_eq_self _ _ fun r hr =>
    applyLast_fix B r fun e' he' => set_agrees_lastEntry s n B r hr e' he'

/-- C3 witness: a concrete double commit collapses to a single one and keeps
the dates duplicate-free. -/
theorem commit_idempotent_w :
    set_last_processed (set_last_processed [] 0 [⟨1, none, "Unknown"⟩]) 1
        [⟨1, none, "Unknown"⟩]
      = set_last_processed [] 0 [⟨1, none, "Unknown"⟩] ∧
    (datesOf (set_last_processed [] 0 [⟨1, none, "Unknown"⟩])).Nodup :=
  ⟨(commit_idempotent [] 0 1 [⟨1, none, "Unknown"⟩]).1,
   (commit_idempotent [] 0 1 [⟨1, none, "Unknown"⟩]).2 (by decide)⟩

/-! ## Driver lemmas for partial failure and notification decoupling -/

theorem smapLoop_okImgs (ps : List (Nat × Option ℚ)) :
    smapLoop (okImgs ps)
      = ps.map (fun p => ⟨p.1, p.2, get_description p.2⟩) := by
  induction ps with
  | nil => rfl
  | cons p ps ih =>
    show (⟨p.1, p.2, get_description p.2⟩ : ProcessedRecord)
        :: smapLoop (okImgs ps) = _
    rw [ih, List.map_cons]

theorem sentinelLoop_okImgsQ (ps : List (Nat × ℚ)) :
    sentinelLoop (okImgsQ ps) = Except.ok (sentinelBatch ps) := by
  induction ps with
  | nil => rfl
  | cons p ps ih =>
    show (match get_sentinel_description (some p.2) with
      | .error e => Except.error e
      | .ok lbl =>
        match sentinelLoop (okImgsQ ps) with
        | .error e => Except.error e
        | .ok rs => Except.ok ((⟨p.1, some p.2, lbl⟩ : ProcessedRecord) :: rs)) = _
    rw [ih]
    rfl

theorem sentinelLoop_okImgsQ_front (ps : List (Nat × ℚ))
    (rest : List SourceImage) :
    sentinelLoop (okImgsQ ps ++ rest)
      = match sentinelLoop rest with
        | .error e => Except.error e
        | .ok rs => Except.ok (sentinelBatch ps ++ rs) := by
  induction ps with
  | nil =>
    show sentinelLoop rest = _
    cases h : sentinelLoop rest <;> simp [sentinelBatch]
  | cons p ps ih =>
    show (match get_sentinel_description (some p.2) with
      | .error e => Except.error e
      | .ok lbl =>
        match sentinelLoop (okImgsQ ps ++ rest) with
        | .error e => Except.error e
        | .ok rs => Except.ok ((⟨p.1, some p.2, lbl⟩ : ProcessedRecord) :: rs)) = _
    rw [ih]
    cases h : sentinelLoop rest <;> rfl

theorem bulk_commits (s : Store) (now : Nat) (batch : List ProcessedRecord)
    (wt : WebhookTransport) (et : EmailTransport) (hb : batch ≠ [])
    (het : et ≠ EmailTransport.osError) :
    bulk_notify_and_hook s now batch wt et
      = Except.ok (set_last_processed s now batch) := by
  unfold bulk_notify_and_hook
  rw [if_neg hb]
  cases et with
  | delivered => rfl
  | smtpError => rfl
  | osError => exact absurd rfl het

/-- C5: when one image of a run fails with a provider error and the rest
succeed, the failure is confined to that image: the assembled batch is
exactly the records of the successful images (one fewer than the image
count) and the run proceeds to the commit, in both pipeline variants. -/
theorem per_image_failure_isolation (s : Store) (now : Nat)
    (pre post : List (Nat × Option ℚ)) (pre' post' : List (Nat × ℚ))
    (bd bd' : Nat) (wt : WebhookTransport) (et : EmailTransport)
    (hne : pre ++ post ≠ []) (hne' : pre' ++ post' ≠ [])
    (het : et ≠ EmailTransport.osError) :
    smapLoop (okImgs pre ++ ⟨bd, ExtractOutcome.eeError⟩ :: okImgs post)
      = smapLoop (okImgs (pre ++ post)) ∧
    (smapLoop (okImgs pre ++ ⟨bd, ExtractOutcome.eeError⟩ :: okImgs post)).length
      = (pre ++ post).length ∧
    run_export s now
        (okImgs pre ++ ⟨bd, ExtractOutcome.eeError⟩ :: okImgs post) wt et
      = Except.ok (set_last_processed s now
          (smapLoop (okImgs (pre ++ post)))) ∧
    sentinelLoop (okImgsQ pre' ++ ⟨bd', ExtractOutcome.eeError⟩ :: okImgsQ post')
      = Except.ok (sentinelBatch (pre' ++ post')) ∧
    (sentinelBatch (pre' ++ post')).length = (pre' ++ post').length ∧
    run_export_sentinel s now
        (okImgsQ pre' ++ ⟨bd', ExtractOutcome.eeError⟩ :: okImgsQ post') wt et
      = Except.ok (set_last_processed s now (sentinelBatch (pre' ++ post'))) := by
  have h1 : smapLoop (okImgs pre ++ ⟨bd, ExtractOutcome.eeError⟩ :: okImgs post)
      = smapLoop (okImgs (pre ++ post)) := by
    rw [smapLoop_append]
    show smapLoop (okImgs pre) ++ smapLoop (okImgs post) = _
    rw [show okImgs (pre ++ post) = okImgs pre ++ okImgs post from
      List.map_append _ _ _, smapLoop_append]
  have hlen : (smapLoop (okImgs (pre ++ post))).length = (pre ++ post).length := by
    rw [smapLoop_okImgs, List.length_map]
  have hbne : smapLoop (okImgs (pre ++ post)) ≠ [] := by
    intro hEq
    apply hne
    have := hlen
    rw [hEq] at this
    exact List.length_eq_zero.mp this.symm
  have h4 : sentinelLoop
      (okImgsQ pre' ++ ⟨bd', ExtractOutcome.eeError⟩ :: okImgsQ post')
      = Except.ok (sentinelBatch (pre' ++ post')) := by
    rw [sentinelLoop_okImgsQ_front]
    show (match sentinelLoop (okImgsQ post') with
      | .error e => Except.error e
      | .ok rs => Except.ok (sentinelBatch pre' ++ rs)) = _
    rw [sentinelLoop_okImgsQ]
    show Except.ok (sentinelBatch pre' ++ sentinelBatch post') = _
    rw [show sentinelBatch (pre' ++ post')
      = sentinelBatch pre' ++ sentinelBatch post' from List.map_append _ _ _]
  have hlen' : (sentinelBatch (pre' ++ post')).length = (pre' ++ post').length :=
    List.length_map _ _
  have hbne' : sentinelBatch (pre' ++ post') ≠ [] := by
    intro hEq
    apply hne'
    have := hlen'
    rw [hEq] at this
    exact List.length_eq_zero.mp this.symm
  refine ⟨h1, by rw [h1, hlen], ?_, h4, hlen', ?_⟩
  · show bulk_notify_and_hook s now
      (smapLoop (okImgs pre ++ ⟨bd, ExtractOutcome.eeError⟩ :: okImgs post))
      wt et = _
    rw [h1]
    exact bulk_commits s now _ wt et hbne het
  · show (match sentinelLoop
        (okImgsQ pre' ++ ⟨bd', ExtractOutcome.eeError⟩ :: okImgsQ post') with
      | .error e => Except.error e
      | .ok batch => bulk_notify_and_hook s now batch wt et) = _
    rw [h4]
    show bulk_notify_and_hook s now (sentinelBatch (pre' ++ post')) wt et = _
    exact bulk_commits s now _ wt et hbne' het

/-- C5 witness: three images per variant, the middle one failing; both runs
commit the two surviving records. -/
theorem per_image_failure_isolation_w :
    smapLoop (okImgs [(1, none)] ++ ⟨2, ExtractOutcome.eeError⟩
        :: okImgs [(3, none)])
      = smapLoop (okImgs ([(1, none)] ++ [(3, none)])) ∧
    (smapLoop (okImgs [(1, none)] ++ ⟨2, ExtractOutcome.eeError⟩
        :: okImgs [(3, none)])).length
      = (([(1, none)] : List (Nat × Option ℚ)) ++ [(3, none)]).length ∧
    run_export [] 0 (okImgs [(1, none)] ++ ⟨2, ExtractOutcome.eeError⟩
        :: okImgs [(3, none)]) (WebhookTransport.response 200)
        EmailTransport.delivered
      = Except.ok (set_last_processed [] 0
          (smapLoop (okImgs ([(1, none)] ++ [(3, none)])))) ∧
    sentinelLoop (okImgsQ [(4, -21)] ++ ⟨5, ExtractOutcome.eeError⟩
        :: okImgsQ [(6, -13)])
      = Except.ok (sentinelBatch ([(4, -21)] ++ [(6, -13)])) ∧
    (sentinelBatch ([(4, -21)] ++ [(6, -13)])).length
      = (([(4, -21)] : List (Nat × ℚ)) ++ [(6, -13)]).length ∧
    run_export_sentinel [] 0 (okImgsQ [(4, -21)] ++ ⟨5, ExtractOutcome.eeError⟩
        :: okImgsQ [(6, -13)]) (WebhookTransport.response 200)
        EmailTransport.delivered
      = Except.ok (set_last_processed [] 0
          (sentinelBatch ([(4, -21)] ++ [(6, -13)]))) :=
  per_image_failure_isolation [] 0 [(1, none)] [(3, none)] [(4, -21)]
    [(6, -13)] 2 5 (WebhookTransport.response 200) EmailTransport.delivered
    (by simp) (by simp) (by simp)

/-- C9 counterexample: with a non-empty batch, an email transport failure
outside `smtplib.SMTPException` (a connection-level `OSError`) propagates
out of `bulk_notify_and_hook` before `set_last_processed` runs, so the
Watermark Store commit does not happen. -/
theorem email_oserror_blocks_commit_cex :
    bulk_notify_and_hook [] 0 [⟨1, none, "Unknown"⟩]
        WebhookTransport.requestError EmailTransport.osError
      = Except.error () ∧
    (Except.error () : Except Unit Store)
      ≠ Except.ok (set_last_processed [] 0 [⟨1, none, "Unknown"⟩]) := by
  refine ⟨rfl, ?_⟩
  simp

/-- C9 amended: the commit is decoupled from the *caught* notification
failures: any webhook outcome (all `requests.RequestException`s are
swallowed) and any email outcome other than a non-`SMTPException` `OSError`
leave the commit intact, and the result does not depend on the webhook
outcome at all. -/
theorem notify_failure_commit_decoupled (s : Store) (now : Nat)
    (batch : List ProcessedRecord) (wt wt' : WebhookTransport)
    (et : EmailTransport) (hb : batch ≠ [])
    (het : et ≠ EmailTransport.osError) :
    bulk_notify_and_hook s now batch wt et
      = Except.ok (set_last_processed s now batch) ∧
    bulk_notify_and_hook s now batch wt et
      = bulk_notify_and_hook s now batch wt' et := by
  refine ⟨bulk_commits s now batch wt et hb het, ?_⟩
  rw [bulk_commits s now batch wt et hb het,
    bulk_commits s now batch wt' et hb het]

/-- C9 amended witness: webhook transport failing and the SMTP session
raising an `SMTPException` still commit the batch. -/
theorem notify_failure_commit_decoupled_w :
    bulk_notify_and_hook [] 0 [⟨1, none, "Unknown"⟩]
        WebhookTransport.requestError EmailTransport.smtpError
      = Except.ok (set_last_processed [] 0 [⟨1, none, "Unknown"⟩]) ∧
    bulk_notify_and_hook [] 0 [⟨1, none, "Unknown"⟩]
        WebhookTransport.requestError EmailTransport.smtpError
      = bulk_notify_and_hook [] 0 [⟨1, none, "Unknown"⟩]
        (WebhookTransport.response 500) EmailTransport.smtpError :=
  notify_failure_commit_decoupled [] 0 [⟨1, none, "Unknown"⟩]
    WebhookTransport.requestError (WebhookTransport.response 500)
    EmailTransport.smtpError (by simp) (by simp)
